import Mathlib

/-!
Verification of the smart-dashboard ordering engine.

The definitions below are a shallow embedding of the server's ordering
code (the global-scan variant in `ordering.ts`: `matchesQuery`, `getRank`,
`getPredByRank`, `getSuccByRank`, `chooseBetween`, `renormalizeWindow`,
`applyReorderInsert`, `listPage`), of the hint-based variant's
`chooseBetween`, and of the route handlers for selection toggling and
`POST /api/order/set`.  JavaScript `Map`s are embedded as insertion-ordered
association lists, JavaScript `Set`s as insertion-ordered lists, and
double-precision ranks as rational numbers.
-/

set_option maxRecDepth 100000

namespace SmartDashboard

def MAX_ID : Nat := 1000000

/-- EPS = 1e-12, the minimal gap before renormalization triggers. -/
def EPS : ℚ := 1 / 1000000000000

/-- Contiguous-subsequence test on character lists, embedding
JavaScript's `String.prototype.includes`. -/
def startsWith : List Char → List Char → Bool
  | _, [] => true
  | [], _ :: _ => false
  | h :: hs, p :: ps => h == p && startsWith hs ps

def containsSeq (hay pat : List Char) : Bool :=
  match hay with
  | [] => pat.isEmpty
  | _ :: rest => startsWith hay pat || containsSeq rest pat

/-- `matchesQuery(id, q)`: true when the query is absent or empty,
otherwise decimal-substring containment. -/
def matchesQuery (id : Nat) (q : Option String) : Bool :=
  match q with
  | none => true
  | some s => if s = "" then true else containsSeq (toString id).toList s.toList

/-- Per-client state: a selection set and the rank-override map,
both in insertion order. -/
structure ClientState where
  selected : List Nat
  rank : List (Nat × ℚ)
deriving DecidableEq, Repr

def emptyState : ClientState := ⟨[], []⟩

/-- `Map.get`, returning the value stored for `id` if present. -/
def mapGet (m : List (Nat × ℚ)) (id : Nat) : Option ℚ :=
  (m.find? (fun e => e.1 == id)).map (·.2)

/-- `Map.set`: update in place when the key exists (keeping its position,
as JavaScript `Map` iteration order does), otherwise append. -/
def mapSet (m : List (Nat × ℚ)) (id : Nat) (r : ℚ) : List (Nat × ℚ) :=
  if m.any (fun e => e.1 == id) then
    m.map (fun e => if e.1 == id then (id, r) else e)
  else m ++ [(id, r)]

/-- `getRank`: the override if present, else the identifier itself. -/
def getRank (st : ClientState) (id : Nat) : ℚ :=
  (mapGet st.rank id).getD id

/-- One step of the predecessor scan over `state.rank.entries()`:
keep the qualifying entry (not the excluded id, a genuine override,
rank below the target) with the greatest rank, first entry winning ties. -/
def predStep (t : ℚ) (ex : Option Nat) (acc : Option (Nat × ℚ)) (e : Nat × ℚ) :
    Option (Nat × ℚ) :=
  if some e.1 ≠ ex ∧ e.2 ≠ (e.1 : ℚ) ∧ e.2 < t then
    match acc with
    | none => some e
    | some pr => if pr.2 < e.2 then some e else acc
  else acc

/-- The default predecessor `floor(t) - 1`, guarded to `[1, MAX_ID]`,
available only when `t > 1`. -/
def defaultPred (t : ℚ) : Option (Nat × ℚ) :=
  if 1 < t then
    if 1 ≤ ⌊t⌋ - 1 ∧ ⌊t⌋ - 1 ≤ (MAX_ID : ℤ) then
      some ((⌊t⌋ - 1).toNat, ((⌊t⌋ - 1 : ℤ) : ℚ))
    else none
  else none

def getPredByRank (st : ClientState) (t : ℚ) (ex : Option Nat) : Option (Nat × ℚ) :=
  match st.rank.foldl (predStep t ex) none with
  | some pr => some pr
  | none => defaultPred t

/-- One step of the successor scan: least qualifying rank above the target. -/
def succStep (t : ℚ) (ex : Option Nat) (acc : Option (Nat × ℚ)) (e : Nat × ℚ) :
    Option (Nat × ℚ) :=
  if some e.1 ≠ ex ∧ e.2 ≠ (e.1 : ℚ) ∧ t < e.2 then
    match acc with
    | none => some e
    | some pr => if e.2 < pr.2 then some e else acc
  else acc

/-- The default successor `floor(t) + 1`, guarded to `[1, MAX_ID]`,
available only when `t < MAX_ID`. -/
def defaultSucc (t : ℚ) : Option (Nat × ℚ) :=
  if t < (MAX_ID : ℚ) then
    if 1 ≤ ⌊t⌋ + 1 ∧ ⌊t⌋ + 1 ≤ (MAX_ID : ℤ) then
      some ((⌊t⌋ + 1).toNat, ((⌊t⌋ + 1 : ℤ) : ℚ))
    else none
  else none

def getSuccByRank (st : ClientState) (t : ℚ) (ex : Option Nat) : Option (Nat × ℚ) :=
  match st.rank.foldl (succStep t ex) none with
  | some sc => some sc
  | none => defaultSucc t

/-- The global-scan variant's `chooseBetween`: midpoint when both bounds
exist (the dense-interval branch of the source also returns the midpoint),
otherwise the defined bound offset by 1e-4, otherwise 0. -/
def chooseBetween (lower upper : Option ℚ) : ℚ :=
  match lower, upper with
  | some l, some u => if EPS ≤ u - l then (l + u) / 2 else (l + u) / 2
  | none, some u => u - 1 / 10000
  | some l, none => l + 1 / 10000
  | none, none => 0

/-- The hint-based variant's `chooseBetween` (`src/server/src/ordering.ts`):
midpoint when both bounds exist, otherwise the defined bound offset by 1. -/
def chooseBetweenHint (lower upper : Option ℚ) : ℚ :=
  match lower, upper with
  | some l, some u => (l + u) / 2
  | none, some u => u - 1
  | some l, none => l + 1
  | none, none => 0

def setRank (st : ClientState) (id : Nat) (r : ℚ) : ClientState :=
  { st with rank := mapSet st.rank id r }

/-- `renormalizeWindow`: fractional spacing inside `(lower, upper)` when both
bounds exist and the gap exceeds EPS, otherwise integer spacing anchored at
whichever bound is defined (at 0 when neither is). -/
def renormalizeWindow (st : ClientState) (ids : List Nat) (lower upper : Option ℚ) :
    ClientState :=
  if ids = [] then st
  else
    match lower, upper with
    | some l, some u =>
      if EPS < u - l then
        let step := (u - l) / ((ids.length : ℚ) + 1)
        ids.enum.foldl (fun s e => setRank s e.2 (l + step * ((e.1 : ℚ) + 1))) st
      else
        ids.enum.foldl (fun s e => setRank s e.2 (u - (ids.length : ℚ) + (e.1 : ℚ))) st
    | none, some u =>
      ids.enum.foldl (fun s e => setRank s e.2 (u - (ids.length : ℚ) + (e.1 : ℚ))) st
    | some l, none =>
      ids.enum.foldl (fun s e => setRank s e.2 (l + 1 + (e.1 : ℚ))) st
    | none, none =>
      ids.enum.foldl (fun s e => setRank s e.2 ((0 : ℚ) + (e.1 : ℚ))) st

inductive InsertPosition where
  | before
  | after
deriving DecidableEq, Repr

structure ReorderPayload where
  movedId : Nat
  targetId : Nat
  position : InsertPosition
deriving DecidableEq, Repr

/-- The `(lower, upper)` bounds computed by `applyReorderInsert`; in the
global-scan variant both are always defined. -/
def reorderBounds (st : ClientState) (p : ReorderPayload) : ℚ × ℚ :=
  let targetRank := getRank st p.targetId
  match p.position with
  | .before =>
    let pred := getPredByRank st targetRank (some p.movedId)
    let lower :=
      match pred with
      | some pr =>
        if pr.1 ≠ p.movedId then
          if pr.2 ≠ (pr.1 : ℚ) then pr.2 else targetRank - 1 / 1000
        else targetRank - 1 / 1000
      | none => targetRank - 1 / 1000
    (lower, targetRank)
  | .after =>
    let succ := getSuccByRank st targetRank (some p.movedId)
    let upper :=
      match succ with
      | some sc =>
        if sc.1 ≠ p.movedId then
          if sc.2 ≠ (sc.1 : ℚ) then sc.2 else targetRank + 1 / 1000
        else targetRank + 1 / 1000
      | none => targetRank + 1 / 1000
    (targetRank, upper)

/-- The dense-interval test `upper - lower < EPS` that decides between the
renormalization branch and the simple midpoint assignment. -/
def needsRenorm (st : ClientState) (p : ReorderPayload) : Bool :=
  decide ((reorderBounds st p).2 - (reorderBounds st p).1 < EPS)

/-- The window `[pred?, moved, target, succ?]` (or `[pred?, target, moved,
succ?]` for `after`) collected for renormalization. -/
def renormWindowIds (st : ClientState) (p : ReorderPayload) : List Nat :=
  let targetRank := getRank st p.targetId
  let pred := getPredByRank st targetRank (some p.movedId)
  let succ := getSuccByRank st targetRank (some p.movedId)
  let mids :=
    match p.position with
    | .before => [p.movedId, p.targetId]
    | .after => [p.targetId, p.movedId]
  (match pred with | some pr => [pr.1] | none => []) ++ mids ++
    (match succ with | some sc => [sc.1] | none => [])

/-- The simple (non-renormalizing) branch: store the allocated rank for the
moved identifier. -/
def simpleInsert (st : ClientState) (p : ReorderPayload) : ClientState :=
  setRank st p.movedId
    (chooseBetween (some (reorderBounds st p).1) (some (reorderBounds st p).2))

/-- The mutation performed by a validated `applyReorderInsert`: renormalize
the window when the gap is dense, otherwise assign the allocated rank and
materialize the target's default rank if it had no override. -/
def reorderCore (st : ClientState) (p : ReorderPayload) : ClientState :=
  if needsRenorm st p then
    renormalizeWindow st (renormWindowIds st p) (some (reorderBounds st p).1)
      (some (reorderBounds st p).2)
  else if (simpleInsert st p).rank.any (fun e => e.1 == p.targetId) then simpleInsert st p
  else setRank (simpleInsert st p) p.targetId ((p.targetId : ℚ))

structure HttpErr where
  code : Nat
  msg : String
deriving DecidableEq, Repr

/-- `applyReorderInsert`: the validation happens before any state access. -/
def applyReorderInsert (st : ClientState) (p : ReorderPayload) :
    Except HttpErr ClientState :=
  if p.movedId < 1 ∨ MAX_ID < p.movedId ∨ p.targetId < 1 ∨ MAX_ID < p.targetId then
    .error ⟨400, "Invalid ID: must be between 1 and 1,000,000"⟩
  else if p.movedId = p.targetId then
    .error ⟨400, "Cannot move item to itself"⟩
  else
    .ok (reorderCore st p)

/-- The state the caller observes after `applyReorderInsert`, whether or not
it threw: a thrown validation error leaves the state untouched. -/
def applyReorderInsertTotal (st : ClientState) (p : ReorderPayload) : ClientState :=
  match applyReorderInsert st p with
  | .ok st' => st'
  | .error _ => st

structure ItemDTO where
  id : Nat
  label : String
  selected : Bool
deriving DecidableEq, Repr

/-- The override-stream comparator `(a, b) => a.rank - b.rank || a.id - b.id`:
ascending rank, identifier as tie-break. -/
def ovLe (a b : Nat × ℚ) : Bool :=
  if a.2 < b.2 then true else if b.2 < a.2 then false else a.1 ≤ b.1

def insertSorted (x : Nat × ℚ) : List (Nat × ℚ) → List (Nat × ℚ)
  | [] => [x]
  | y :: ys => if ovLe x y then x :: y :: ys else y :: insertSorted x ys

def sortOvs (l : List (Nat × ℚ)) : List (Nat × ℚ) :=
  l.foldr insertSorted []

/-- The inner while loop advancing `defaultPointer` to the next identifier in
the default stream (not overridden, matching the query).  The fuel is always
instantiated with `MAX_ID + 1 - p`, so running out of fuel is exactly the
`defaultPointer <= MAX_ID` bound check. -/
def findFrom (ovIds : List Nat) (q : Option String) : Nat → Nat → Option Nat
  | 0, _ => none
  | fuel + 1, p =>
    if !ovIds.contains p && matchesQuery p q then some p
    else findFrom ovIds q fuel (p + 1)

def nextDefault (ovIds : List Nat) (q : Option String) (p : Nat) : Option Nat :=
  findFrom ovIds q (MAX_ID + 1 - p) p

/-- One iteration of the merge: compare the override-stream head with the next
default-stream candidate and emit whichever has the smaller `(rank, id)` pair,
advancing that stream. -/
def pickNext (q : Option String) (ovIds : List Nat) (ovs : List (Nat × ℚ)) (p : Nat) :
    Option ((Nat × ℚ) × List (Nat × ℚ) × Nat) :=
  match ovs, nextDefault ovIds q p with
  | [], none => none
  | [], some d => some ((d, (d : ℚ)), [], d + 1)
  | o :: rest, none => some (o, rest, p)
  | o :: rest, some d =>
    if (d : ℚ) < o.2 ∨ ((d : ℚ) = o.2 ∧ d < o.1) then some ((d, (d : ℚ)), o :: rest, d + 1)
    else some (o, rest, d)

def toItem (sel : List Nat) (x : Nat × ℚ) : ItemDTO :=
  ⟨x.1, "Item " ++ toString x.1, sel.contains x.1⟩

/-- The emitting phase of the merge loop (`seen >= offset`): produce up to
`e` items. -/
def emitLoop (sel : List Nat) (q : Option String) (ovIds : List Nat) :
    Nat → List (Nat × ℚ) → Nat → List ItemDTO
  | 0, _, _ => []
  | e + 1, ovs, p =>
    match pickNext q ovIds ovs p with
    | none => []
    | some (x, ovs', p') => toItem sel x :: emitLoop sel q ovIds e ovs' p'

/-- The skipping phase of the merge loop (`seen < offset`): consume up to `s`
items without emitting them. -/
def skipLoop (q : Option String) (ovIds : List Nat) :
    Nat → List (Nat × ℚ) → Nat → List (Nat × ℚ) × Nat
  | 0, ovs, p => (ovs, p)
  | s + 1, ovs, p =>
    match pickNext q ovIds ovs p with
    | none => (ovs, p)
    | some (_, ovs', p') => skipLoop q ovIds s ovs' p'

/-- The override stream: genuine overrides matching the query, pre-sorted by
`(rank, id)`. -/
def pageOvs (st : ClientState) (q : Option String) : List (Nat × ℚ) :=
  sortOvs (st.rank.filter (fun e => !((e.1 : ℚ) == e.2) && matchesQuery e.1 q))

def pageOvIds (st : ClientState) (q : Option String) : List Nat :=
  (pageOvs st q).map (·.1)

/-- `listPage`: merge the sorted genuine-override stream with the default
identity stream, skip `offset` matches, emit up to `limit` items. -/
def listPage (st : ClientState) (q : Option String) (offset limit : Nat) :
    List ItemDTO :=
  emitLoop st.selected q (pageOvIds st q) limit
    (skipLoop q (pageOvIds st q) offset (pageOvs st q) 1).1
    (skipLoop q (pageOvIds st q) offset (pageOvs st q) 1).2

/-! ### The session store and the route handlers -/

abbrev Store := List (String × ClientState)

def storeFind (s : Store) (cid : String) : Option ClientState :=
  (s.find? (fun e => e.1 == cid)).map (·.2)

/-- `store.get`: create an empty state on first access. -/
def storeGet (s : Store) (cid : String) : ClientState × Store :=
  match storeFind s cid with
  | some st => (st, s)
  | none => (emptyState, s ++ [(cid, emptyState)])

def storeSet (s : Store) (cid : String) (st : ClientState) : Store :=
  if s.any (fun e => e.1 == cid) then
    s.map (fun e => if e.1 == cid then (cid, st) else e)
  else s ++ [(cid, st)]

/-- `POST /api/order` at store level: validation precedes the store access,
so an invalid request can not touch (or even lazily create) any state. -/
def applyReorderInsertS (s : Store) (cid : String) (p : ReorderPayload) :
    Except HttpErr Store :=
  if p.movedId < 1 ∨ MAX_ID < p.movedId ∨ p.targetId < 1 ∨ MAX_ID < p.targetId then
    .error ⟨400, "Invalid ID: must be between 1 and 1,000,000"⟩
  else if p.movedId = p.targetId then
    .error ⟨400, "Cannot move item to itself"⟩
  else
    let g := storeGet s cid
    .ok (storeSet g.2 cid (reorderCore g.1 p))

def applyReorderInsertSTotal (s : Store) (cid : String) (p : ReorderPayload) : Store :=
  match applyReorderInsertS s cid p with
  | .ok s' => s'
  | .error _ => s

/-- JavaScript `Set.add`. -/
def selAdd (sel : List Nat) (id : Nat) : List Nat :=
  if sel.contains id then sel else sel ++ [id]

/-- JavaScript `Set.delete`. -/
def selRemove (sel : List Nat) (id : Nat) : List Nat :=
  sel.filter (fun x => x != id)

/-- The `POST /api/selection/toggle` handler.  (The source interpolates the
offending identifier into the range-error message; the message is embedded
here as its constant prefix.) -/
def toggleSelection (s : Store) (cid : String) (ids : List Nat) (selected : Bool) :
    Except HttpErr Store :=
  if ids = [] then .error ⟨400, "ids must be a non-empty array"⟩
  else if 1000 < ids.length then .error ⟨400, "Too many ids: maximum 1000 allowed"⟩
  else if ids.any (fun id => decide (id < 1) || decide (MAX_ID < id)) then
    .error ⟨400, "Invalid ID"⟩
  else
    let g := storeGet s cid
    let st := g.1
    let st' : ClientState :=
      if selected then ⟨ids.foldl selAdd st.selected, st.rank⟩
      else ⟨ids.foldl selRemove st.selected, st.rank⟩
    .ok (storeSet g.2 cid st')

def toggleSelectionTotal (s : Store) (cid : String) (ids : List Nat) (selected : Bool) :
    Store :=
  match toggleSelection s cid ids selected with
  | .ok s' => s'
  | .error _ => s

/-- The `POST /api/order/set` handler, acting on the addressed client state:
after validation it clears all overrides and stores rank `index + 1` for the
identifier at each position. -/
def setWholeOrder (st : ClientState) (itemIds : List Nat) : Except HttpErr ClientState :=
  if itemIds = [] then .error ⟨400, "itemIds cannot be empty"⟩
  else if itemIds.any (fun id => decide (id < 1) || decide (MAX_ID < id)) then
    .error ⟨400, "Invalid ID: must be between 1 and 1,000,000"⟩
  else
    .ok ⟨st.selected, itemIds.enum.foldl (fun m e => mapSet m e.2 ((e.1 : ℚ) + 1)) []⟩

def setWholeOrderTotal (st : ClientState) (itemIds : List Nat) : ClientState :=
  match setWholeOrder st itemIds with
  | .ok st' => st'
  | .error _ => st

/-- Sequential application of a list of reorder requests, stopping at the
first validation error. -/
def runAll (st : ClientState) (ps : List ReorderPayload) : Except HttpErr ClientState :=
  ps.foldl (fun acc p => acc.bind (fun s => applyReorderInsert s p)) (.ok st)

/-! ### Association-list lemmas

`mapSet` and `storeSet` are both instances of the same insertion-ordered
update pattern; the lemmas are stated generically and instantiated. -/

theorem find?_mapUpdate_ne {α β : Type} [BEq α] [LawfulBEq α]
    (m : List (α × β)) (k c : α) (v : β) (h : (c == k) = false) :
    (m.map (fun e => if e.1 == k then (k, v) else e)).find? (fun e => e.1 == c) =
      m.find? (fun e => e.1 == c) := by
  induction m with
  | nil => rfl
  | cons e l ih =>
    by_cases he : (e.1 == k) = true
    · have he' : e.1 = k := eq_of_beq he
      have hkc : (k == c) = false := by
        rw [beq_eq_false_iff_ne] at h ⊢
        exact fun hk => h hk.symm
      simp only [List.map_cons, List.find?, he, if_pos, if_true]
      rw [he']
      simp only [hkc]
      exact ih
    · have he'' : (e.1 == k) = false := by simpa using he
      simp only [List.map_cons, List.find?, he'', if_false, Bool.false_eq_true]
      cases hc : (e.1 == c)
      · exact ih
      · rfl

theorem findSet_self {α β : Type} [BEq α] [LawfulBEq α]
    (m : List (α × β)) (k : α) (v : β) :
    (if m.any (fun e => e.1 == k) then m.map (fun e => if e.1 == k then (k, v) else e)
     else m ++ [(k, v)]).find? (fun e => e.1 == k) = some (k, v) := by
  by_cases h : m.any (fun e => e.1 == k) = true
  · rw [if_pos h]
    induction m with
    | nil => simp at h
    | cons e l ih =>
      by_cases he : (e.1 == k) = true
      · simp [List.find?, he]
      · have he'' : (e.1 == k) = false := by simpa using he
        have hl : l.any (fun e => e.1 == k) = true := by
          simpa [List.any_cons, he''] using h
        simp only [List.map_cons, List.find?, he'', if_false, Bool.false_eq_true]
        exact ih hl
  · rw [if_neg h]
    have hnone : m.find? (fun e => e.1 == k) = none := by
      rw [List.find?_eq_none]
      intro x hx hxk
      exact h (List.any_eq_true.mpr ⟨x, hx, hxk⟩)
    rw [List.find?_append, hnone]
    simp

theorem findSet_ne {α β : Type} [BEq α] [LawfulBEq α]
    (m : List (α × β)) (k c : α) (v : β) (h : (c == k) = false) :
    (if m.any (fun e => e.1 == k) then m.map (fun e => if e.1 == k then (k, v) else e)
     else m ++ [(k, v)]).find? (fun e => e.1 == c) = m.find? (fun e => e.1 == c) := by
  by_cases hany : m.any (fun e => e.1 == k) = true
  · rw [if_pos hany]
    exact find?_mapUpdate_ne m k c v h
  · rw [if_neg hany, List.find?_append]
    have hkc : (k == c) = false := by
      rw [beq_eq_false_iff_ne] at h ⊢
      exact fun hk => h hk.symm
    cases hfind : m.find? (fun e => e.1 == c)
    · simp [List.find?, hkc]
    · rfl

theorem mapGet_mapSet_self (m : List (Nat × ℚ)) (id : Nat) (r : ℚ) :
    mapGet (mapSet m id r) id = some r := by
  unfold mapGet mapSet
  rw [findSet_self]
  rfl

theorem mapGet_mapSet_ne (m : List (Nat × ℚ)) (id j : Nat) (r : ℚ) (h : j ≠ id) :
    mapGet (mapSet m id r) j = mapGet m j := by
  unfold mapGet mapSet
  rw [findSet_ne]
  simpa using h

theorem storeFind_storeSet_self (s : Store) (cid : String) (st : ClientState) :
    storeFind (storeSet s cid st) cid = some st := by
  unfold storeFind storeSet
  rw [findSet_self]
  rfl

theorem storeFind_storeSet_ne (s : Store) (cid c : String) (st : ClientState)
    (h : c ≠ cid) :
    storeFind (storeSet s cid st) c = storeFind s c := by
  unfold storeFind storeSet
  rw [findSet_ne]
  simpa using h

theorem storeGet_fst (s : Store) (cid : String) :
    (storeGet s cid).1 = (storeFind s cid).getD emptyState := by
  unfold storeGet
  cases storeFind s cid <;> rfl

theorem storeFind_storeGet_snd_self (s : Store) (cid : String) :
    storeFind (storeGet s cid).2 cid = some (storeGet s cid).1 := by
  unfold storeGet
  cases hf : storeFind s cid
  · simp only
    unfold storeFind at hf ⊢
    rw [List.find?_append]
    have : s.find? (fun e => e.1 == cid) = none := by
      cases hss : s.find? (fun e => e.1 == cid)
      · rfl
      · rw [hss] at hf
        simp at hf
    rw [this]
    simp
  · simpa using hf

theorem storeFind_storeGet_snd_ne (s : Store) (cid c : String) (h : c ≠ cid) :
    storeFind (storeGet s cid).2 c = storeFind s c := by
  unfold storeGet
  cases hf : storeFind s cid
  · simp only
    unfold storeFind
    rw [List.find?_append]
    have hcidc : (cid == c) = false := by
      rw [beq_eq_false_iff_ne]
      exact fun hk => h hk.symm
    cases hss : s.find? (fun e => e.1 == c)
    · simp [List.find?, hcidc]
    · rfl
  · rfl

/-! ### Frame lemmas: the reorder transaction writes only rank entries -/

theorem setRank_selected (st : ClientState) (id : Nat) (r : ℚ) :
    (setRank st id r).selected = st.selected := rfl

theorem foldl_setRank_selected (l : List (Nat × Nat)) (g : Nat × Nat → ℚ)
    (st : ClientState) :
    (l.foldl (fun s e => setRank s e.2 (g e)) st).selected = st.selected := by
  induction l generalizing st with
  | nil => rfl
  | cons e l ih => simpa using ih (setRank st e.2 (g e))

theorem renormalizeWindow_selected (st : ClientState) (ids : List Nat)
    (lower upper : Option ℚ) :
    (renormalizeWindow st ids lower upper).selected = st.selected := by
  unfold renormalizeWindow
  split
  · rfl
  · split
    · split <;> exact foldl_setRank_selected _ _ _
    · exact foldl_setRank_selected _ _ _
    · exact foldl_setRank_selected _ _ _
    · exact foldl_setRank_selected _ _ _

theorem reorderCore_selected (st : ClientState) (p : ReorderPayload) :
    (reorderCore st p).selected = st.selected := by
  unfold reorderCore
  split
  · exact renormalizeWindow_selected _ _ _ _
  · split <;> rfl

/-! ### Claim theorems -/

/-- The state after Scenario A's first reorder. -/
def stA1 : ClientState := ⟨[], [(130, 59999 / 2000), (30, 30)]⟩

/-- The state after Scenario A's second reorder. -/
def stA2 : ClientState := ⟨[], [(130, 59999 / 2000), (30, 30), (230, 29999 / 1000)]⟩

/-- C1: from the empty client state, `applyReorderInsert(130, 30, before)`
resolves the rank of 130 strictly inside `(29, 30)`; a subsequent
`applyReorderInsert(230, 130, before)` yields
`getRank 230 < getRank 130 < getRank 30`; and `listPage` with no query,
offset 0, limit 50 emits 230, 130, 30 as three consecutive items (positions
30, 31, 32, after the defaults 1..29 and before the defaults 31..48). -/
theorem scenarioA_chain :
    applyReorderInsert emptyState ⟨130, 30, .before⟩ = .ok stA1 ∧
    29 < getRank stA1 130 ∧ getRank stA1 130 < 30 ∧
    applyReorderInsert stA1 ⟨230, 130, .before⟩ = .ok stA2 ∧
    getRank stA2 230 < getRank stA2 130 ∧ getRank stA2 130 < getRank stA2 30 ∧
    (listPage stA2 none 0 50).map (·.id) =
      List.range' 1 29 ++ [230, 130, 30] ++ List.range' 31 18 := by
  refine ⟨?_, ?_, ?_, ?_, ?_, ?_, ?_⟩ <;> with_unfolding_all rfl

/-- C5: the two in-repo `chooseBetween` implementations disagree on
single-bound inputs: the global-scan variant offsets the defined bound by
1e-4, the hint-based variant by 1. -/
theorem chooseBetween_variants_disagree :
    chooseBetween none (some 10) = 10 - 1 / 10000 ∧
    chooseBetweenHint none (some 10) = 10 - 1 ∧
    chooseBetween (some 10) none = 10 + 1 / 10000 ∧
    chooseBetweenHint (some 10) none = 10 + 1 ∧
    chooseBetween none (some 10) ≠ chooseBetweenHint none (some 10) := by
  refine ⟨?_, ?_, ?_, ?_, ?_⟩
  · with_unfolding_all rfl
  · with_unfolding_all rfl
  · with_unfolding_all rfl
  · with_unfolding_all rfl
  · with_unfolding_all decide

/-- The prior state of Scenario B: overrides exactly
`{100 ↦ 30.0001, 101 ↦ 30.0002}`. -/
def stB : ClientState := ⟨[], [(100, 300001 / 10000), (101, 300002 / 10000)]⟩

def payloadB : ReorderPayload := ⟨102, 101, .before⟩

/-- C4 counterexample: contrary to the claim, `applyReorderInsert(102, 101,
before)` on Scenario B's state does NOT trigger renormalization — the bounds
are `lower = 30.0001` (the genuine override of 100) and `upper = 30.0002`,
whose gap 1e-4 is far above EPS = 1e-12, so the dense-interval branch is not
taken. -/
theorem scenarioB_renorm_not_triggered : needsRenorm stB payloadB = false := by
  with_unfolding_all rfl

/-- C4 amended: on Scenario B's state, `applyReorderInsert(102, 101, before)`
does not renormalize; it assigns 102 the midpoint rank 30.00015, and the
resulting total order places 100 before 102 before 101. -/
theorem scenarioB_midpoint_order :
    needsRenorm stB payloadB = false ∧
    applyReorderInsert stB payloadB =
      .ok ⟨[], [(100, 300001 / 10000), (101, 300002 / 10000), (102, 600003 / 20000)]⟩ ∧
    getRank (reorderCore stB payloadB) 100 < getRank (reorderCore stB payloadB) 102 ∧
    getRank (reorderCore stB payloadB) 102 < getRank (reorderCore stB payloadB) 101 := by
  refine ⟨?_, ?_, ?_, ?_⟩ <;> with_unfolding_all rfl

/-- C3: `applyReorderInsert` throws a validation error exactly when an
identifier is outside `[1, MAX_ID]` or the two identifiers coincide; a thrown
error leaves the state untouched; every payload passing the checks succeeds. -/
theorem applyReorderInsert_error_iff (st : ClientState) (p : ReorderPayload) :
    ((∃ e, applyReorderInsert st p = .error e) ↔
      (p.movedId < 1 ∨ MAX_ID < p.movedId ∨ p.targetId < 1 ∨ MAX_ID < p.targetId ∨
        p.movedId = p.targetId)) ∧
    ((∃ e, applyReorderInsert st p = .error e) → applyReorderInsertTotal st p = st) ∧
    (¬(p.movedId < 1 ∨ MAX_ID < p.movedId ∨ p.targetId < 1 ∨ MAX_ID < p.targetId ∨
        p.movedId = p.targetId) →
      applyReorderInsert st p = .ok (reorderCore st p)) := by
  by_cases hbad : p.movedId < 1 ∨ MAX_ID < p.movedId ∨ p.targetId < 1 ∨ MAX_ID < p.targetId
  · have h1 : applyReorderInsert st p =
        .error ⟨400, "Invalid ID: must be between 1 and 1,000,000"⟩ := by
      unfold applyReorderInsert
      rw [if_pos hbad]
    refine ⟨⟨fun _ => ?_, fun _ => ⟨_, h1⟩⟩, fun _ => ?_, fun hc => ?_⟩
    · tauto
    · unfold applyReorderInsertTotal
      rw [h1]
    · exact (hc (by tauto)).elim
  · by_cases heq : p.movedId = p.targetId
    · have h1 : applyReorderInsert st p =
          .error ⟨400, "Cannot move item to itself"⟩ := by
        unfold applyReorderInsert
        rw [if_neg hbad, if_pos heq]
      refine ⟨⟨fun _ => ?_, fun _ => ⟨_, h1⟩⟩, fun _ => ?_, fun hc => ?_⟩
      · tauto
      · unfold applyReorderInsertTotal
        rw [h1]
      · exact (hc (by tauto)).elim
    · have h1 : applyReorderInsert st p = .ok (reorderCore st p) := by
        unfold applyReorderInsert
        rw [if_neg hbad, if_neg heq]
      have hne : ¬∃ e, applyReorderInsert st p = .error e := by
        rintro ⟨e, he⟩
        rw [h1] at he
        exact absurd he (by simp)
      refine ⟨⟨fun he => (hne he).elim, fun hc => ?_⟩, fun he => (hne he).elim,
        fun _ => h1⟩
      · tauto

/-- C3 witness: the self-move `(5, 5, before)` is rejected and the empty
state is unchanged. -/
theorem applyReorderInsert_error_iff_witness :
    applyReorderInsertTotal emptyState ⟨5, 5, .before⟩ = emptyState :=
  (applyReorderInsert_error_iff emptyState ⟨5, 5, .before⟩).2.1
    ⟨⟨400, "Cannot move item to itself"⟩, by with_unfolding_all rfl⟩

/-- C10: the selection-toggle handler rejects an empty `ids` array with a
validation error before any mutation, although an empty batch is within the
1000-identifier cap and contains no out-of-range identifier. -/
theorem toggleSelection_rejects_empty (s : Store) (cid : String) (sel : Bool) :
    toggleSelection s cid [] sel = .error ⟨400, "ids must be a non-empty array"⟩ ∧
    toggleSelectionTotal s cid [] sel = s ∧
    ([] : List Nat).length ≤ 1000 ∧
    (∀ id ∈ ([] : List Nat), 1 ≤ id ∧ id ≤ MAX_ID) := by
  exact ⟨rfl, rfl, by decide, by simp⟩

/-- C10 witness: the rejection at a concrete store. -/
theorem toggleSelection_rejects_empty_witness :
    toggleSelectionTotal ([] : Store) "client-a" [] true = ([] : Store) :=
  (toggleSelection_rejects_empty ([] : Store) "client-a" true).2.1

/-- C9: whatever the payload (valid or not), the reorder transaction never
touches any selection set — every client's `selected` reads the same after the
call — and the state of every client other than the addressed one is entirely
unchanged. -/
theorem reorder_frame (s : Store) (cid : String) (p : ReorderPayload) :
    (∀ c, (storeGet (applyReorderInsertSTotal s cid p) c).1.selected =
        (storeGet s c).1.selected) ∧
    (∀ c, c ≠ cid → storeFind (applyReorderInsertSTotal s cid p) c = storeFind s c) := by
  by_cases hbad : p.movedId < 1 ∨ MAX_ID < p.movedId ∨ p.targetId < 1 ∨ MAX_ID < p.targetId
  · have h1 : applyReorderInsertSTotal s cid p = s := by
      unfold applyReorderInsertSTotal applyReorderInsertS
      rw [if_pos hbad]
    rw [h1]
    exact ⟨fun c => rfl, fun c _ => rfl⟩
  · by_cases heq : p.movedId = p.targetId
    · have h1 : applyReorderInsertSTotal s cid p = s := by
        unfold applyReorderInsertSTotal applyReorderInsertS
        rw [if_neg hbad, if_pos heq]
      rw [h1]
      exact ⟨fun c => rfl, fun c _ => rfl⟩
    · have h1 : applyReorderInsertSTotal s cid p =
          storeSet (storeGet s cid).2 cid (reorderCore (storeGet s cid).1 p) := by
        unfold applyReorderInsertSTotal applyReorderInsertS
        rw [if_neg hbad, if_neg heq]
      rw [h1]
      constructor
      · intro c
        by_cases hc : c = cid
        · subst hc
          rw [storeGet_fst, storeFind_storeSet_self]
          simp only [Option.getD_some]
          rw [reorderCore_selected, storeGet_fst]
        · simp only [storeGet_fst]
          rw [storeFind_storeSet_ne _ _ _ _ hc, storeFind_storeGet_snd_ne s cid c hc]
      · intro c hc
        rw [storeFind_storeSet_ne _ _ _ _ hc, storeFind_storeGet_snd_ne s cid c hc]

/-- C9 witness: a concrete other client is untouched. -/
theorem reorder_frame_witness :
    storeFind (applyReorderInsertSTotal ([] : Store) "alice" ⟨1, 2, .before⟩) "bob" =
      storeFind ([] : Store) "bob" :=
  (reorder_frame ([] : Store) "alice" ⟨1, 2, .before⟩).2 "bob" (by decide)

/-- Folding `mapSet` over an indexed suffix never touches keys outside it. -/
theorem buildFold_not_mem (l : List Nat) :
    ∀ (off : Nat) (m : List (Nat × ℚ)) (j : Nat), j ∉ l →
      mapGet ((l.enumFrom off).foldl (fun acc e => mapSet acc e.2 ((e.1 : ℚ) + 1)) m) j =
        mapGet m j := by
  induction l with
  | nil => intro off m j _; rfl
  | cons a l ih =>
    intro off m j hj
    have hja : j ≠ a := fun h => hj (h ▸ List.mem_cons_self a l)
    have hjl : j ∉ l := fun h => hj (List.mem_cons_of_mem a h)
    simp only [List.enumFrom, List.foldl_cons]
    rw [ih (off + 1) _ j hjl, mapGet_mapSet_ne _ _ _ _ hja]

/-- Folding `mapSet` over an indexed duplicate-free list stores
`offset + position + 1` for the identifier at each position. -/
theorem buildFold_get (l : List Nat) :
    ∀ (off : Nat) (m : List (Nat × ℚ)) (k : Nat) (h : k < l.length), l.Nodup →
      mapGet ((l.enumFrom off).foldl (fun acc e => mapSet acc e.2 ((e.1 : ℚ) + 1)) m)
        (l.get ⟨k, h⟩) = some (((off + k : Nat) : ℚ) + 1) := by
  induction l with
  | nil => intro off m k h; exact absurd h (by simp)
  | cons a l ih =>
    intro off m k h hnd
    obtain ⟨ha, hndl⟩ := List.nodup_cons.mp hnd
    cases k with
    | zero =>
      simp only [List.enumFrom, List.foldl_cons, List.get]
      rw [buildFold_not_mem l (off + 1) _ a ha, mapGet_mapSet_self]
      norm_num
    | succ k' =>
      simp only [List.enumFrom, List.foldl_cons, List.get]
      rw [show off + (k' + 1) = off + 1 + k' by omega]
      exact ih (off + 1) _ k' (by simpa using h) hndl

/-- C8: a valid (nonempty, in-range, duplicate-free) `setWholeOrder` call
succeeds, leaves the selection untouched, stores exactly override rank
`index + 1` for the identifier at each position and no other override; in
particular `setWholeOrder([5,3,1,2,4])` on any prior state makes `listPage`
with no query, offset 0, limit 5 return exactly 5, 3, 1, 2, 4. -/
theorem setWholeOrder_spec (st : ClientState) (ids : List Nat)
    (hne : ids ≠ []) (hrange : ∀ id ∈ ids, 1 ≤ id ∧ id ≤ MAX_ID) (hnd : ids.Nodup) :
    setWholeOrder st ids = .ok (setWholeOrderTotal st ids) ∧
    (setWholeOrderTotal st ids).selected = st.selected ∧
    (∀ k (h : k < ids.length),
      mapGet (setWholeOrderTotal st ids).rank (ids.get ⟨k, h⟩) = some ((k : ℚ) + 1)) ∧
    (∀ j, j ∉ ids → mapGet (setWholeOrderTotal st ids).rank j = none) ∧
    (∀ st0 : ClientState,
      (listPage (setWholeOrderTotal st0 [5, 3, 1, 2, 4]) none 0 5).map (·.id) =
        [5, 3, 1, 2, 4]) := by
  have hok : setWholeOrder st ids =
      .ok ⟨st.selected, ids.enum.foldl (fun m e => mapSet m e.2 ((e.1 : ℚ) + 1)) []⟩ := by
    unfold setWholeOrder
    rw [if_neg hne, if_neg ?hval]
    case hval =>
      intro hany
      rw [List.any_eq_true] at hany
      obtain ⟨x, hx, hxb⟩ := hany
      obtain ⟨h1, h2⟩ := hrange x hx
      simp only [Bool.or_eq_true, decide_eq_true_eq] at hxb
      omega
  have htot : setWholeOrderTotal st ids =
      ⟨st.selected, ids.enum.foldl (fun m e => mapSet m e.2 ((e.1 : ℚ) + 1)) []⟩ := by
    unfold setWholeOrderTotal
    rw [hok]
  refine ⟨?_, ?_, ?_, ?_, ?_⟩
  · rw [hok, htot]
  · rw [htot]
  · intro k h
    rw [htot]
    have hb := buildFold_get ids 0 [] k h hnd
    simpa [List.enum] using hb
  · intro j hj
    rw [htot]
    have hb := buildFold_not_mem ids 0 [] j hj
    simpa [List.enum] using hb
  · intro st0
    have h5 : setWholeOrderTotal st0 [5, 3, 1, 2, 4] =
        ⟨st0.selected, [(5, 1), (3, 2), (1, 3), (2, 4), (4, 5)]⟩ := by
      with_unfolding_all rfl
    rw [h5]
    with_unfolding_all rfl

/-- C8 witness: at Scenario D's input, the identifier at position 0 receives
override rank 1. -/
theorem setWholeOrder_spec_witness :
    mapGet (setWholeOrderTotal emptyState [5, 3, 1, 2, 4]).rank
        ([5, 3, 1, 2, 4].get ⟨0, by decide⟩) = some ((0 : ℚ) + 1) :=
  (setWholeOrder_spec emptyState [5, 3, 1, 2, 4] (by decide) (by decide)
    (by decide)).2.2.1 0 (by decide)

/-- Thirty successive inserts of fresh identifiers 201..230 before the same
target 30, starting from the empty state.  Each one halves the gap below the
target's rank. -/
def opsC2 : List ReorderPayload :=
  (List.range 30).map (fun k => ⟨201 + k, 30, .before⟩)

/-- The state reached by `opsC2`: identifier `200 + k` holds rank
`30 - 2^-k/1000`, and the target's default rank 30 is materialized. -/
def stC2 : ClientState :=
  ⟨[], [(201, 30 - 1 / (1000 * 2 ^ 1)), (30, 30)] ++
    (List.range 29).map (fun j => (202 + j, 30 - 1 / (1000 * 2 ^ (j + 2))))⟩

/-- C2 (the separation invariant fails on the code): all thirty reorders in
`opsC2` succeed — none triggers renormalization, because each gap stays at or
above EPS — yet afterwards the last moved identifier 230 sits at rank
`30 - 2^-30/1000`, strictly within EPS ≈ 1e-12 of its immediate successor 30
(and 230 is not at an unbounded end: every other identifier in `[1, MAX_ID]`
resolves strictly below 230's rank or strictly above 30's).  The code only
renormalizes when a gap is already below EPS, so a midpoint allocation can
land closer than EPS to both neighbors. -/
theorem reorder_separation_below_eps :
    runAll emptyState opsC2 = .ok stC2 ∧
    0 < getRank stC2 30 - getRank stC2 230 ∧
    getRank stC2 30 - getRank stC2 230 < EPS ∧
    (∀ j, 1 ≤ j → j ≤ MAX_ID → j ≠ 230 → j ≠ 30 →
      getRank stC2 j < getRank stC2 230 ∨ getRank stC2 30 < getRank stC2 j) := by
  refine ⟨by with_unfolding_all rfl, by with_unfolding_all rfl,
    by with_unfolding_all rfl, ?_⟩
  intro j h1 h2 h230 h30
  have hfact : ∀ e ∈ stC2.rank, e.1 = 230 ∨ e.1 = 30 ∨ e.2 < getRank stC2 230 := by
    with_unfolding_all decide
  have h29 : (29 : ℚ) < getRank stC2 230 := by with_unfolding_all decide
  have h30val : getRank stC2 30 = 30 := by with_unfolding_all rfl
  cases hfind : mapGet stC2.rank j with
  | some r =>
    have hgr : getRank stC2 j = r := by
      unfold getRank
      rw [hfind]
      rfl
    unfold mapGet at hfind
    cases hfe : stC2.rank.find? (fun e => e.1 == j) with
    | none =>
      rw [hfe] at hfind
      simp at hfind
    | some e =>
      rw [hfe] at hfind
      simp only [Option.map_some'] at hfind
      have hmem := List.mem_of_find?_eq_some hfe
      have hkey : e.1 = j := by
        have hk0 := List.find?_some hfe
        simpa [beq_iff_eq] using hk0
      have he := hfact e hmem
      rcases he with hk | hk | hk
      · exact absurd (hkey ▸ hk) h230
      · exact absurd (hkey ▸ hk) h30
      · left
        have hvr : e.2 = r := Option.some.inj hfind
        rw [hgr]
        exact hvr ▸ hk
  | none =>
    have hgr : getRank stC2 j = (j : ℚ) := by
      unfold getRank
      rw [hfind]
      rfl
    by_cases hj : j ≤ 29
    · left
      rw [hgr]
      have hcast : (j : ℚ) ≤ 29 := by exact_mod_cast hj
      exact lt_of_le_of_lt hcast h29
    · right
      rw [h30val, hgr]
      have h31 : 31 ≤ j := by omega
      have hcast : (31 : ℚ) ≤ (j : ℚ) := by exact_mod_cast h31
      linarith

/-- A rank-map entry competing in the predecessor scan: not the excluded
identifier, a genuine override (stored rank differs from the identifier),
rank strictly below the target. -/
def qualifies (t : ℚ) (ex : Option Nat) (e : Nat × ℚ) : Prop :=
  some e.1 ≠ ex ∧ e.2 ≠ (e.1 : ℚ) ∧ e.2 < t

/-- If nothing in the list qualifies, the predecessor scan keeps its
accumulator. -/
theorem predScan_const (t : ℚ) (ex : Option Nat) (l : List (Nat × ℚ)) :
    ∀ acc, (∀ e ∈ l, ¬qualifies t ex e) → l.foldl (predStep t ex) acc = acc := by
  induction l with
  | nil => intro acc _; rfl
  | cons e l ih =>
    intro acc hall
    have h0 := hall e (List.mem_cons_self e l)
    unfold qualifies at h0
    have hps : predStep t ex acc e = acc := by
      unfold predStep
      rw [if_neg h0]
    rw [List.foldl_cons, hps]
    exact ih acc (fun e' he' => hall e' (List.mem_cons_of_mem e he'))

/-- Invariant of the predecessor scan: a `none` result means nothing
qualified (and the accumulator was empty); a `some` result is either the
accumulator or a qualifying entry of the list, dominates the rank of every
qualifying entry, and dominates the accumulator. -/
theorem predScan_spec (t : ℚ) (ex : Option Nat) (l : List (Nat × ℚ)) :
    ∀ acc : Option (Nat × ℚ),
      (l.foldl (predStep t ex) acc = none → acc = none ∧ ∀ e ∈ l, ¬qualifies t ex e) ∧
      (∀ pr, l.foldl (predStep t ex) acc = some pr →
        (acc = some pr ∨ (pr ∈ l ∧ qualifies t ex pr)) ∧
        (∀ e ∈ l, qualifies t ex e → e.2 ≤ pr.2) ∧
        (∀ a, acc = some a → a.2 ≤ pr.2)) := by
  induction l with
  | nil =>
    intro acc
    refine ⟨fun h => ⟨h, by simp⟩, fun pr h => ?_⟩
    simp only [List.foldl_nil] at h
    refine ⟨Or.inl h, by simp, fun a ha => ?_⟩
    rw [h] at ha
    rw [Option.some.inj ha]
  | cons e l ih =>
    intro acc
    rw [List.foldl_cons]
    by_cases hq : qualifies t ex e
    · have hq' := hq
      unfold qualifies at hq'
      cases acc with
      | none =>
        have hps : predStep t ex none e = some e := by
          unfold predStep
          rw [if_pos hq']
        rw [hps]
        constructor
        · intro hnone
          exact absurd ((ih (some e)).1 hnone).1 (by simp)
        · intro pr hpr
          obtain ⟨hsrc, hmax, haccb⟩ := ((ih (some e)).2) pr hpr
          refine ⟨?_, ?_, ?_⟩
          · rcases hsrc with h | h
            · obtain rfl := Option.some.inj h
              exact Or.inr ⟨List.mem_cons_self e l, hq⟩
            · exact Or.inr ⟨List.mem_cons_of_mem e h.1, h.2⟩
          · intro e' he' hq'
            rcases List.mem_cons.mp he' with rfl | hmem'
            · exact haccb e' rfl
            · exact hmax e' hmem' hq'
          · intro a ha
            exact absurd ha (by simp)
      | some a0 =>
        by_cases hlt : a0.2 < e.2
        · have hps : predStep t ex (some a0) e = some e := by
            unfold predStep
            rw [if_pos hq']
            show (if a0.2 < e.2 then some e else some a0) = some e
            rw [if_pos hlt]
          rw [hps]
          constructor
          · intro hnone
            exact absurd ((ih (some e)).1 hnone).1 (by simp)
          · intro pr hpr
            obtain ⟨hsrc, hmax, haccb⟩ := ((ih (some e)).2) pr hpr
            refine ⟨?_, ?_, ?_⟩
            · rcases hsrc with h | h
              · obtain rfl := Option.some.inj h
                exact Or.inr ⟨List.mem_cons_self e l, hq⟩
              · exact Or.inr ⟨List.mem_cons_of_mem e h.1, h.2⟩
            · intro e' he' hq'
              rcases List.mem_cons.mp he' with rfl | hmem'
              · exact haccb e' rfl
              · exact hmax e' hmem' hq'
            · intro a ha
              obtain rfl : a0 = a := Option.some.inj ha
              exact le_trans (le_of_lt hlt) (haccb e rfl)
        · have hps : predStep t ex (some a0) e = some a0 := by
            unfold predStep
            rw [if_pos hq']
            show (if a0.2 < e.2 then some e else some a0) = some a0
            rw [if_neg hlt]
          rw [hps]
          constructor
          · intro hnone
            exact absurd ((ih (some a0)).1 hnone).1 (by simp)
          · intro pr hpr
            obtain ⟨hsrc, hmax, haccb⟩ := ((ih (some a0)).2) pr hpr
            refine ⟨?_, ?_, ?_⟩
            · rcases hsrc with h | h
              · exact Or.inl h
              · exact Or.inr ⟨List.mem_cons_of_mem e h.1, h.2⟩
            · intro e' he' hq'
              rcases List.mem_cons.mp he' with rfl | hmem'
              · exact le_trans (le_of_not_lt hlt) (haccb a0 rfl)
              · exact hmax e' hmem' hq'
            · intro a ha
              obtain rfl : a0 = a := Option.some.inj ha
              exact haccb a0 rfl
    · have hqneg := hq
      unfold qualifies at hqneg
      have hps : predStep t ex acc e = acc := by
        unfold predStep
        rw [if_neg hqneg]
      rw [hps]
      constructor
      · intro hnone
        obtain ⟨hacc, hall⟩ := (ih acc).1 hnone
        refine ⟨hacc, ?_⟩
        intro e' he'
        rcases List.mem_cons.mp he' with rfl | hmem'
        · exact hq
        · exact hall e' hmem'
      · intro pr hpr
        obtain ⟨hsrc, hmax, haccb⟩ := (ih acc).2 pr hpr
        refine ⟨?_, ?_, haccb⟩
        · rcases hsrc with h | h
          · exact Or.inl h
          · exact Or.inr ⟨List.mem_cons_of_mem e h.1, h.2⟩
        · intro e' he' hq'
          rcases List.mem_cons.mp he' with rfl | hmem'
          · exact absurd hq' hq
          · exact hmax e' hmem' hq'

/-- C7: `getPredByRank` characterized.  Whenever some entry of the rank map
qualifies (not the excluded identifier, a genuine override, rank below the
target) the function returns a qualifying entry of maximal rank among them,
never the default fallback; any returned genuine override is such an entry;
and when no entry qualifies, the result is the default predecessor
`floor(targetRank) - 1` exactly when that value lies in `[1, MAX_ID]` — in
particular for `targetRank <= 1` it is `none`. -/
theorem getPredByRank_spec (st : ClientState) (t : ℚ) (ex : Option Nat) :
    ((∃ e0 ∈ st.rank, qualifies t ex e0) →
      ∃ pr, getPredByRank st t ex = some pr ∧ pr ∈ st.rank ∧ qualifies t ex pr ∧
        (∀ e ∈ st.rank, qualifies t ex e → e.2 ≤ pr.2)) ∧
    (∀ i r, getPredByRank st t ex = some (i, r) → r ≠ (i : ℚ) →
      (i, r) ∈ st.rank ∧ ex ≠ some i ∧ r < t ∧
        (∀ e ∈ st.rank, qualifies t ex e → e.2 ≤ r)) ∧
    ((∀ e ∈ st.rank, ¬qualifies t ex e) →
      getPredByRank st t ex =
        if 1 ≤ ⌊t⌋ - 1 ∧ ⌊t⌋ - 1 ≤ (MAX_ID : ℤ) then
          some ((⌊t⌋ - 1).toNat, ((⌊t⌋ - 1 : ℤ) : ℚ))
        else none) ∧
    (t ≤ 1 → (∀ e ∈ st.rank, ¬qualifies t ex e) → getPredByRank st t ex = none) := by
  have hfl1 : ¬(1 : ℚ) < t → ⌊t⌋ ≤ 1 := by
    intro ht
    have h := Int.floor_le_floor (α := ℚ) (le_of_not_lt ht)
    simpa using h
  refine ⟨?_, ?_, ?_, ?_⟩
  · rintro ⟨e0, he0, hq0⟩
    cases hscan : st.rank.foldl (predStep t ex) none with
    | none =>
      obtain ⟨-, hall⟩ := (predScan_spec t ex st.rank none).1 hscan
      exact absurd hq0 (hall e0 he0)
    | some pr =>
      obtain ⟨hsrc, hmax, -⟩ := (predScan_spec t ex st.rank none).2 pr hscan
      rcases hsrc with h | h
      · exact absurd h (by simp)
      · refine ⟨pr, ?_, h.1, h.2, hmax⟩
        unfold getPredByRank
        rw [hscan]
  · intro i r hres hri
    cases hscan : st.rank.foldl (predStep t ex) none with
    | some pr =>
      have hres' : some pr = some (i, r) := by
        unfold getPredByRank at hres
        rw [hscan] at hres
        exact hres
      obtain rfl : pr = (i, r) := Option.some.inj hres'
      obtain ⟨hsrc, hmax, _⟩ := (predScan_spec t ex st.rank none).2 (i, r) hscan
      rcases hsrc with h | h
      · exact absurd h (by simp)
      · obtain ⟨hmem, hqual⟩ := h
        obtain ⟨hex, _hgen, hlt⟩ := hqual
        exact ⟨hmem, hex.symm, hlt, hmax⟩
    | none =>
      have hres' : defaultPred t = some (i, r) := by
        unfold getPredByRank at hres
        rw [hscan] at hres
        exact hres
      unfold defaultPred at hres'
      by_cases ht : 1 < t
      · rw [if_pos ht] at hres'
        by_cases hd : 1 ≤ ⌊t⌋ - 1 ∧ ⌊t⌋ - 1 ≤ (MAX_ID : ℤ)
        · rw [if_pos hd] at hres'
          have heq := Option.some.inj hres'
          have hi : (⌊t⌋ - 1).toNat = i := congrArg Prod.fst heq
          have hr : ((⌊t⌋ - 1 : ℤ) : ℚ) = r := congrArg Prod.snd heq
          have hcast : (((⌊t⌋ - 1).toNat : ℕ) : ℚ) = ((⌊t⌋ - 1 : ℤ) : ℚ) := by
            rw [← Int.cast_natCast, Int.toNat_of_nonneg (by omega)]
          rw [hi] at hcast
          exact absurd (by rw [← hr, ← hcast]) hri
        · rw [if_neg hd] at hres'
          exact absurd hres' (by simp)
      · rw [if_neg ht] at hres'
        exact absurd hres' (by simp)
  · intro hnoq
    unfold getPredByRank
    rw [predScan_const t ex st.rank none hnoq]
    show defaultPred t = _
    unfold defaultPred
    by_cases ht : 1 < t
    · rw [if_pos ht]
    · rw [if_neg ht]
      have := hfl1 ht
      rw [if_neg (by omega)]
  · intro ht hnoq
    unfold getPredByRank
    rw [predScan_const t ex st.rank none hnoq]
    show defaultPred t = none
    unfold defaultPred
    rw [if_neg (not_lt.mpr ht)]

/-- A state with two genuine overrides, for exercising the override-scan path
of the predecessor query. -/
def stC7 : ClientState := ⟨[], [(100, 300001 / 10000), (101, 300002 / 10000)]⟩

/-- C7 witness: with genuine overrides `{100 ↦ 30.0001, 101 ↦ 30.0002}` and
target rank 30.0002 (excluding 102), the query returns a maximal qualifying
override — not the default fallback; and on the empty state with target rank
30 the default predecessor 29 is returned. -/
theorem getPredByRank_spec_witness :
    (∃ pr, getPredByRank stC7 (300002 / 10000) (some 102) = some pr ∧
      pr ∈ stC7.rank ∧ qualifies (300002 / 10000) (some 102) pr ∧
      (∀ e ∈ stC7.rank, qualifies (300002 / 10000) (some 102) e → e.2 ≤ pr.2)) ∧
    getPredByRank emptyState 30 none = some (29, (29 : ℚ)) := by
  constructor
  · exact (getPredByRank_spec stC7 (300002 / 10000) (some 102)).1
      ⟨(100, 300001 / 10000), List.mem_cons_self _ _,
        by decide, by with_unfolding_all decide, by with_unfolding_all decide⟩
  · have h := (getPredByRank_spec emptyState 30 none).2.2.1 (by simp [emptyState])
    rw [h]
    with_unfolding_all rfl

/-- With less fuel, the emitting merge loop produces a prefix of what it
produces with more fuel. -/
theorem emitLoop_take (sel : List Nat) (q : Option String) (ovIds : List Nat) :
    ∀ (a b : Nat) (ovs : List (Nat × ℚ)) (p : Nat),
      emitLoop sel q ovIds a ovs p = (emitLoop sel q ovIds (a + b) ovs p).take a := by
  intro a
  induction a with
  | zero =>
    intro b ovs p
    simp [emitLoop]
  | succ a ih =>
    intro b ovs p
    have hab : a + 1 + b = (a + b) + 1 := by omega
    rw [hab]
    cases hpick : pickNext q ovIds ovs p with
    | none => simp [emitLoop, hpick]
    | some x =>
      obtain ⟨x1, ovs', p'⟩ := x
      have h1 : emitLoop sel q ovIds (a + 1) ovs p =
          toItem sel x1 :: emitLoop sel q ovIds a ovs' p' := by
        simp [emitLoop, hpick]
      have h2 : emitLoop sel q ovIds ((a + b) + 1) ovs p =
          toItem sel x1 :: emitLoop sel q ovIds (a + b) ovs' p' := by
        simp [emitLoop, hpick]
      rw [h1, h2, List.take_succ_cons, ih b ovs' p']

/-- Consuming `s` items in skip mode and then emitting `e` equals dropping
the first `s` items of a single `s + e` emission. -/
theorem skipLoop_emitLoop (sel : List Nat) (q : Option String) (ovIds : List Nat) :
    ∀ (s e : Nat) (ovs : List (Nat × ℚ)) (p : Nat),
      emitLoop sel q ovIds e (skipLoop q ovIds s ovs p).1 (skipLoop q ovIds s ovs p).2 =
        (emitLoop sel q ovIds (s + e) ovs p).drop s := by
  intro s
  induction s with
  | zero =>
    intro e ovs p
    simp [skipLoop]
  | succ s ih =>
    intro e ovs p
    cases hpick : pickNext q ovIds ovs p with
    | none =>
      have hempty : ∀ n, emitLoop sel q ovIds n ovs p = [] := by
        intro n
        cases n with
        | zero => rfl
        | succ n => simp [emitLoop, hpick]
      have hskip : skipLoop q ovIds (s + 1) ovs p = (ovs, p) := by
        simp [skipLoop, hpick]
      rw [hskip, hempty, hempty]
      simp
    | some x =>
      obtain ⟨x1, ovs', p'⟩ := x
      have hskip : skipLoop q ovIds (s + 1) ovs p = skipLoop q ovIds s ovs' p' := by
        simp [skipLoop, hpick]
      have hse : s + 1 + e = (s + e) + 1 := by omega
      have hemit : emitLoop sel q ovIds ((s + e) + 1) ovs p =
          toItem sel x1 :: emitLoop sel q ovIds (s + e) ovs' p' := by
        simp [emitLoop, hpick]
      rw [hskip, hse, hemit, List.drop_succ_cons]
      exact ih e ovs' p'

/-- C6: `listPage` is deterministic — identical arguments with no intervening
writes give identical results — and pages compose: the concatenation of the
pages `[0, k)` and `[k, k + m)` is the page `[0, k + m)`. -/
theorem listPage_paging (st : ClientState) (q : Option String) (k m : Nat)
    (_hk1 : 1 ≤ k) (_hk2 : k ≤ 100) (_hm1 : 1 ≤ m) (_hm2 : m ≤ 100) :
    listPage st q 0 k = listPage st q 0 k ∧
    listPage st q 0 k ++ listPage st q k m = listPage st q 0 (k + m) := by
  refine ⟨rfl, ?_⟩
  show emitLoop st.selected q (pageOvIds st q) k (pageOvs st q) 1 ++
      emitLoop st.selected q (pageOvIds st q) m
        (skipLoop q (pageOvIds st q) k (pageOvs st q) 1).1
        (skipLoop q (pageOvIds st q) k (pageOvs st q) 1).2 =
      emitLoop st.selected q (pageOvIds st q) (k + m) (pageOvs st q) 1
  rw [skipLoop_emitLoop st.selected q (pageOvIds st q) k m (pageOvs st q) 1,
    emitLoop_take st.selected q (pageOvIds st q) k m (pageOvs st q) 1]
  exact List.take_append_drop k _

/-- C6 witness: two unit pages of the empty state concatenate to the first
two-item page. -/
theorem listPage_paging_witness :
    listPage emptyState none 0 1 ++ listPage emptyState none 1 1 =
      listPage emptyState none 0 2 :=
  (listPage_paging emptyState none 1 1 (by decide) (by decide) (by decide)
    (by decide)).2

end SmartDashboard
